import Mathlib

/-!
Verification of the `contrust` N-body simulator (Barnes-Hut gravity, RK4
integration, point-mass merging) against its natural-language specification.

Embedding conventions:
* Rust `f64` scalars are modelled by exact fields: `ℚ` for the purely
  rational tree-construction code (`gravity_calc.rs` construction path,
  `universe.rs` progress) and `ℝ` for the code that takes square / cube
  roots (`calculate_accel`, `accel_between`, `conflicts`).  Floating-point
  rounding, NaN and infinity behaviour are outside the model.
* `pair_macro::Pair` is the 2-component structure `Pair`; its Rust operator
  impls (componentwise `+`/`-`, scalar `*`/`/`) are the instances below.
* `TreeNode<T>` (tree.rs) with `Vec<Self>` children is the nested inductive
  `TreeNode`.
* The unbounded recursion of `construct_tree` (gravity_calc.rs) is embedded
  with an explicit recursion-depth argument `fuel`; a run of the Rust code
  that terminates corresponds to `some tree` for every sufficiently large
  `fuel`, and a run that recurses forever corresponds to `none` for all
  `fuel`.
* `itertools::into_group_map` iterates a `HashMap` in unspecified order; the
  embedding fixes the quadrant order LeftTop, LeftBottom, RightTop,
  RightBottom.  All aggregations over children are commutative sums, so the
  fixed order is an order refinement of the source, not a change of result.
* Rust `Vec::pop` removes the last element; `merge_masspoints` is embedded
  with `List.getLast?` / `List.dropLast` accordingly.
-/

namespace Contrust

/-- 2-component vector, after `pair_macro::Pair`. -/
@[ext]
structure Pair (α : Type) where
  x : α
  y : α
deriving DecidableEq, Repr

instance [Add α] : Add (Pair α) where
  add a b := ⟨a.x + b.x, a.y + b.y⟩

instance [Sub α] : Sub (Pair α) where
  sub a b := ⟨a.x - b.x, a.y - b.y⟩

instance [Zero α] : Zero (Pair α) where
  zero := ⟨0, 0⟩

/-- Rust `Pair<T> * S` (componentwise scalar multiplication). -/
instance [Mul α] : HMul (Pair α) α (Pair α) where
  hMul p s := ⟨p.x * s, p.y * s⟩

/-- Rust `Pair<T> / S` (componentwise scalar division). -/
instance [Div α] : HDiv (Pair α) α (Pair α) where
  hDiv p s := ⟨p.x / s, p.y / s⟩

instance [AddCommMonoid α] : AddCommMonoid (Pair α) where
  add_assoc a b c := by
    ext
    · exact add_assoc a.x b.x c.x
    · exact add_assoc a.y b.y c.y
  zero_add a := by
    ext
    · exact zero_add a.x
    · exact zero_add a.y
  add_zero a := by
    ext
    · exact add_zero a.x
    · exact add_zero a.y
  add_comm a b := by
    ext
    · exact add_comm a.x b.x
    · exact add_comm a.y b.y
  nsmul := nsmulRec

/-- Iteration order of `Pair`'s `IntoIterator`: `x` then `y`. -/
def Pair.toList (p : Pair α) : List α := [p.x, p.y]

/-- `gravity_calc.rs` `StaticMassPoint`. -/
structure StaticMassPoint (α : Type) where
  mass : α
  position : Pair α
deriving DecidableEq, Repr

/-- `gravity_calc.rs` `Rect`: the data stored at each quad-tree node. -/
structure Rect (α : Type) where
  mass : α
  mass_center : Pair α
  geometric_center : Pair α
  length : Pair α
deriving DecidableEq, Repr

/-- `tree.rs` `TreeNode<T>` specialised to `Rect` data. -/
inductive TreeNode (α : Type) where
  | mk (data : Rect α) (children : List (TreeNode α))

def TreeNode.data : TreeNode α → Rect α
  | .mk d _ => d

def TreeNode.children : TreeNode α → List (TreeNode α)
  | .mk _ c => c

/-- `gravity_calc.rs` `ChildRectLocation`. -/
inductive ChildRectLocation where
  | LeftTop
  | LeftBottom
  | RightTop
  | RightBottom
deriving DecidableEq, Repr

/-- `ChildRectLocation::locate`: classify a position against a node's
geometric center; ties on either axis go to the `Right` / `Bottom` side. -/
def ChildRectLocation.locate (pos geometric_center : Pair ℚ) : ChildRectLocation :=
  if pos.x < geometric_center.x then
    if pos.y < geometric_center.y then .LeftTop else .LeftBottom
  else
    if pos.y < geometric_center.y then .RightTop else .RightBottom

/-- `ChildRectLocation::to_geometric_center`: the child's center is the
parent's center shifted by `±0.5 * parent.length` on each axis (the source's
`shift` pair is `±0.5`, multiplied entrywise by `parent.length`). -/
def ChildRectLocation.to_geometric_center (loc : ChildRectLocation) (parent : Rect ℚ) :
    Pair ℚ :=
  let shift : Pair ℚ :=
    match loc with
    | .LeftTop => ⟨-(1/2), -(1/2)⟩
    | .LeftBottom => ⟨-(1/2), 1/2⟩
    | .RightTop => ⟨1/2, -(1/2)⟩
    | .RightBottom => ⟨1/2, 1/2⟩
  parent.geometric_center + ⟨parent.length.x * shift.x, parent.length.y * shift.y⟩

/-- The fresh child `Rect` built in `construct_tree` for one quadrant:
`Rect::new(Default::default(), Default::default(), child_geometric_center,
child_length)` with `child_length = parent.length / 2`. -/
def child_rect (loc : ChildRectLocation) (parent : Rect ℚ) : Rect ℚ :=
  { mass := 0
    mass_center := 0
    geometric_center := loc.to_geometric_center parent
    length := parent.length / (2 : ℚ) }

/-- All four quadrants, in the order the embedding processes them. -/
def allLocations : List ChildRectLocation :=
  [.LeftTop, .LeftBottom, .RightTop, .RightBottom]

/-- The `into_group_map` grouping of `construct_tree`: the points of each
quadrant, in input order, with empty quadrants dropped (the source only
creates children for non-empty groups). -/
def groupsOf (geometric_center : Pair ℚ) (l : List (StaticMassPoint ℚ)) :
    List (ChildRectLocation × List (StaticMassPoint ℚ)) :=
  allLocations.filterMap (fun loc =>
    let g := l.filter (fun p => decide (ChildRectLocation.locate p.position geometric_center = loc))
    if g.isEmpty then none else some (loc, g))

/-- Sequencing of fallible child construction. -/
def mapOption (f : α → Option β) : List α → Option (List β)
  | [] => some []
  | a :: l =>
    match f a, mapOption f l with
    | some b, some r => some (b :: r)
    | _, _ => none

/-- `gravity_calc.rs` `construct_tree`, with an explicit recursion-depth
bound `fuel` (the Rust recursion is unbounded; `none` means the bound was
hit, and an input on which every `fuel` yields `none` recurses forever).
The source's `assert!(weight_sum > 0)` is not modelled as a failure here;
it is verified as an invariant separately. -/
def construct_tree : Nat → Rect ℚ → List (StaticMassPoint ℚ) → Option (TreeNode ℚ)
  | _, rect, [] => some (.mk rect [])
  | _, rect, [m] => some (.mk { rect with mass := m.mass, mass_center := m.position } [])
  | 0, _, _ :: _ :: _ => none
  | fuel + 1, rect, p :: q :: rest =>
    (mapOption (fun lg => construct_tree fuel (child_rect lg.1 rect) lg.2)
        (groupsOf rect.geometric_center (p :: q :: rest))).map
      (fun children =>
        let weight_sum := (children.map (fun c => c.data.mass)).foldl (· + ·) 0
        let mass_center :=
          ((children.map (fun c => c.data.mass_center * c.data.mass)).foldl (· + ·) 0) /
            weight_sum
        .mk { rect with mass := weight_sum, mass_center := mass_center } children)

/-- `gravity_calc.rs` `construct_root`: the root node's `Rect`.
Faithful to the source, including its slip: both the `x` and the `y`
extrema are taken over `m.position.x`. -/
def construct_root_rect (l : List (StaticMassPoint ℚ)) : Rect ℚ :=
  match l with
  | [] => { mass := 0, mass_center := 0, geometric_center := 0, length := 0 }
  | p :: ps =>
    let x_min := (ps.map (fun m => m.position.x)).foldl min p.position.x
    let x_max := (ps.map (fun m => m.position.x)).foldl max p.position.x
    let y_min := (ps.map (fun m => m.position.x)).foldl min p.position.x
    let y_max := (ps.map (fun m => m.position.x)).foldl max p.position.x
    let minp : Pair ℚ := ⟨x_min, y_min⟩
    let maxp : Pair ℚ := ⟨x_max, y_max⟩
    let center := (maxp + minp) / (2 : ℚ)
    let length := maxp - minp
    { mass := 0, mass_center := center, geometric_center := center, length := length }

/-- Root construction followed by tree construction, as `calculate_accels`
performs it. -/
def buildTree (fuel : Nat) (l : List (StaticMassPoint ℚ)) : Option (TreeNode ℚ) :=
  construct_tree fuel (construct_root_rect l) l

/-! ### Node-local predicates over whole trees -/

mutual
/-- `P` holds at every node of the tree. -/
def tree_all (P : TreeNode ℚ → Bool) : TreeNode ℚ → Bool
  | .mk d cs => P (.mk d cs) && tree_all_list P cs
def tree_all_list (P : TreeNode ℚ → Bool) : List (TreeNode ℚ) → Bool
  | [] => true
  | t :: ts => tree_all P t && tree_all_list P ts
end

/-- Node-local aggregation invariant of the spec: an internal node's mass is
the sum of its children's masses and its center of mass is the mass-weighted
average of its children's centers of mass. -/
def agg_node_b (t : TreeNode ℚ) : Bool :=
  t.children.isEmpty ||
    (decide (t.data.mass = (t.children.map (fun c => c.data.mass)).sum) &&
     decide (t.data.mass_center =
       ((t.children.map (fun c => c.data.mass_center * c.data.mass)).sum) / t.data.mass))

/-- The spec's bottom-up aggregation invariant, at every node. -/
def agg_inv_b (t : TreeNode ℚ) : Bool := tree_all agg_node_b t

/-- Every internal node (a node with children) carries a strictly positive
aggregated mass: exactly what `assert!(weight_sum.value_unsafe > 0.0)`
checks once per internal node during construction. -/
def internal_pos_b (t : TreeNode ℚ) : Bool :=
  tree_all (fun t => t.children.isEmpty || decide (0 < t.data.mass)) t

/-! ### Claim-side quantities, written from the spec's words -/

/-- Sum of the individual masses of a point list. -/
def masses_sum (l : List (StaticMassPoint ℚ)) : ℚ := (l.map (fun p => p.mass)).sum

/-- Sum of position times mass over a point list. -/
def weighted_position_sum (l : List (StaticMassPoint ℚ)) : Pair ℚ :=
  (l.map (fun p => p.position * p.mass)).sum

/-- The classical mass-weighted centroid of a point list. -/
def centroid (l : List (StaticMassPoint ℚ)) : Pair ℚ :=
  weighted_position_sum l / masses_sum l

/-- Per-axis minimum of all point positions (the spec's bounding-box corner;
`x` from the `x` coordinates and `y` from the `y` coordinates). -/
def spec_box_min : List (StaticMassPoint ℚ) → Pair ℚ
  | [] => 0
  | p :: ps =>
    ⟨(ps.map (fun m => m.position.x)).foldl min p.position.x,
     (ps.map (fun m => m.position.y)).foldl min p.position.y⟩

/-- Per-axis maximum of all point positions. -/
def spec_box_max : List (StaticMassPoint ℚ) → Pair ℚ
  | [] => 0
  | p :: ps =>
    ⟨(ps.map (fun m => m.position.x)).foldl max p.position.x,
     (ps.map (fun m => m.position.y)).foldl max p.position.y⟩

/-- The spec's root geometric center: the bounding-box midpoint. -/
def spec_root_center (l : List (StaticMassPoint ℚ)) : Pair ℚ :=
  (spec_box_max l + spec_box_min l) / (2 : ℚ)

/-- The spec's root extent: the bounding-box size. -/
def spec_root_extent (l : List (StaticMassPoint ℚ)) : Pair ℚ :=
  spec_box_max l - spec_box_min l

/-- Sign of the offset toward each quadrant (left/top negative,
right/bottom positive, matching the source's orientation). -/
def loc_sign : ChildRectLocation → Pair ℚ
  | .LeftTop => ⟨-1, -1⟩
  | .LeftBottom => ⟨-1, 1⟩
  | .RightTop => ⟨1, -1⟩
  | .RightBottom => ⟨1, 1⟩

/-- Child center as claim C2 states it: the parent's center offset by
± one quarter of the parent's extent on each axis, toward the quadrant. -/
def claimed_quarter_center (loc : ChildRectLocation) (parent : Rect ℚ) : Pair ℚ :=
  parent.geometric_center +
    ⟨(loc_sign loc).x * (parent.length.x / 4), (loc_sign loc).y * (parent.length.y / 4)⟩

/-- Child center as the code actually computes it: the parent's center
offset by ± one half of the parent's extent on each axis, toward the
quadrant (the amended form of claim C2). -/
def amended_half_center (loc : ChildRectLocation) (parent : Rect ℚ) : Pair ℚ :=
  parent.geometric_center +
    ⟨(loc_sign loc).x * (parent.length.x / 2), (loc_sign loc).y * (parent.length.y / 2)⟩

/-! ### Concrete inputs used by witnesses and counterexamples -/

/-- Two separated bodies: mass 1 at (0,0) and mass 2 at (4,0). -/
def two_body_points : List (StaticMassPoint ℚ) := [⟨1, ⟨0, 0⟩⟩, ⟨2, ⟨4, 0⟩⟩]

/-- The root `Rect` the code builds for `two_body_points`. -/
def two_body_root : Rect ℚ := { mass := 0, mass_center := ⟨2, 2⟩, geometric_center := ⟨2, 2⟩, length := ⟨4, 4⟩ }

/-- The tree the code builds for `two_body_points`. -/
def two_body_tree : TreeNode ℚ :=
  .mk { mass := 3, mass_center := ⟨8/3, 0⟩, geometric_center := ⟨2, 2⟩, length := ⟨4, 4⟩ }
    [.mk { mass := 1, mass_center := ⟨0, 0⟩, geometric_center := ⟨0, 0⟩, length := ⟨2, 2⟩ } [],
     .mk { mass := 2, mass_center := ⟨4, 0⟩, geometric_center := ⟨4, 0⟩, length := ⟨2, 2⟩ } []]

/-- Two points with pairwise distinct positions (they differ in `y`) on
which tree construction never terminates, because `construct_root` takes
the `y` extrema from the `x` coordinates. -/
def c7_points : List (StaticMassPoint ℚ) := [⟨1, ⟨0, 0⟩⟩, ⟨1, ⟨0, 10⟩⟩]

/-- Two points whose bounding box has different x- and y-spans, exposing
the `construct_root` slip. -/
def c1_points : List (StaticMassPoint ℚ) := [⟨1, ⟨0, 0⟩⟩, ⟨1, ⟨1, 5⟩⟩]

/-- The (degenerate) root `Rect` the code builds for `c7_points`: because the
`y` extrema are taken from the `x` coordinates, both axes collapse. -/
def c7_rect : Rect ℚ :=
  { mass := 0, mass_center := ⟨0, 0⟩, geometric_center := ⟨0, 0⟩, length := ⟨0, 0⟩ }

/-!
### Force approximator (`calculate_accel`, `accel_between`)

These take square roots, so they are embedded over `ℝ` (with classical
decidability for the comparisons the source performs on `f64`).
-/

/-- Componentwise map, after Rust `Pair::map`. -/
def Pair.map (p : Pair α) (f : α → β) : Pair β := ⟨f p.x, f p.y⟩

/-- Squared Euclidean norm of a 2-vector (claim-side shorthand `‖v‖²`). -/
def norm_sq (v : Pair ℝ) : ℝ := v.x ^ 2 + v.y ^ 2

/-- `gravity_calc.rs` `accel_between`: softened Newtonian attraction of an
aggregate `Rect` on a point, with the *un-shifted* squared separation. -/
noncomputable def accel_between (receiver : StaticMassPoint ℝ) (applier : Rect ℝ)
    (gravity_constant gravity_cutoff : ℝ) : Pair ℝ :=
  let diff := applier.mass_center - receiver.position
  let square_sum := ((diff.map (fun d => d * d)).toList).foldl (· + ·) 0
  let normal_diff := diff / Real.sqrt square_sum
  let cutoff := gravity_cutoff * gravity_cutoff
  let len := square_sum + cutoff
  normal_diff * gravity_constant * applier.mass / len

open Classical in
/-- The aggregate-body branch of `calculate_accel` (gravity_calc.rs lines
236-244): zero for a coinciding center of mass, otherwise `accel_between`. -/
noncomputable def aggregate_body (mass_point : StaticMassPoint ℝ) (rect : Rect ℝ)
    (gravity_constant gravity_cutoff : ℝ) : Pair ℝ :=
  if rect.mass_center = mass_point.position then 0
  else accel_between mass_point rect gravity_constant gravity_cutoff

open Classical in
mutual
/-- `gravity_calc.rs` `calculate_accel`: Barnes-Hut traversal.  The `+1`
offsets come from the source's folds starting at `Meter2::new(1.0)`. -/
noncomputable def calculate_accel (mass_point : StaticMassPoint ℝ) (rect : TreeNode ℝ)
    (gravity_constant gravity_cutoff minimum_ratio : ℝ) : Pair ℝ :=
  match rect with
  | .mk data children =>
    let norm := ((mass_point.position - data.mass_center).toList).foldl
      (fun acc cur => acc + cur * cur) 1
    let len2 := (data.length.toList).foldl (fun acc cur => acc + cur * cur) 1
    let distance_condition := norm / len2 > minimum_ratio
    let tree_condition := children.isEmpty
    if distance_condition ∨ tree_condition = true then
      if data.mass_center = mass_point.position then 0
      else accel_between mass_point data gravity_constant gravity_cutoff
    else
      (calculate_accel_list mass_point children gravity_constant gravity_cutoff
        minimum_ratio).foldl (· + ·) 0
/-- The mapped recursive calls over a node's children, in order. -/
noncomputable def calculate_accel_list (mass_point : StaticMassPoint ℝ)
    (ts : List (TreeNode ℝ)) (gravity_constant gravity_cutoff minimum_ratio : ℝ) :
    List (Pair ℝ) :=
  match ts with
  | [] => []
  | t :: ts =>
    calculate_accel mass_point t gravity_constant gravity_cutoff minimum_ratio ::
      calculate_accel_list mass_point ts gravity_constant gravity_cutoff minimum_ratio
end

/-!
### Point-mass merging (`universe.rs`)
-/

/-- `mass.rs` `MassPoint`. -/
structure MassPoint where
  mass : ℝ
  position : Pair ℝ
  velocity : Pair ℝ

/-- `universe.rs` `conflicts`: two point masses conflict when their centers
are closer than the sum of their density-implied radii (`root(P3)` is the
real cube root, embedded as `rpow (1/3)`). -/
noncomputable def conflicts (mp1 mp2 : MassPoint) (density : ℝ) : Prop :=
  let r1 := (mp1.mass / density) ^ ((1 : ℝ) / 3)
  let r2 := (mp2.mass / density) ^ ((1 : ℝ) / 3)
  let distance :=
    Real.sqrt (((mp1.position - mp2.position).toList).foldl (fun acc cur => acc + cur * cur) 0)
  distance < r1 + r2

/-- `universe.rs` `merge`: mass-conserving, momentum-weighted averaging. -/
noncomputable def merge (a b : MassPoint) : MassPoint :=
  let mass := a.mass + b.mass
  { mass := mass
    position := (a.position * a.mass + b.position * b.mass) / mass
    velocity := (a.velocity * a.mass + b.velocity * b.mass) / mass }

open Classical in
/-- `universe.rs` `merge_masspoints`: repeatedly pop the last remaining
point (Rust `Vec::pop`), fold in all conflicting peers, emit the merged
point, and continue with the non-conflicting rest. -/
noncomputable def merge_masspoints : List MassPoint → ℝ → List MassPoint
  | [], _ => []
  | a :: l, density =>
    let temp := (a :: l).getLast (List.cons_ne_nil a l)
    let rest := (a :: l).dropLast
    let confl := rest.filter (fun mp => decide (conflicts mp temp density))
    let unconfl := rest.filter (fun mp => !decide (conflicts mp temp density))
    let merged := confl.foldl (fun m mp => merge m mp) temp
    merged :: merge_masspoints unconfl density
termination_by l _ => l.length
decreasing_by
  simp only [List.length_cons]
  have h1 : ∀ (P : MassPoint → Bool) (ll : List MassPoint),
      (ll.filter P).length ≤ ll.length := fun P ll => List.length_filter_le P ll
  have h2 : ((a :: l).dropLast).length = l.length := by simp
  exact lt_of_le_of_lt ((h1 _ _).trans h2.le) (Nat.lt_succ_self _)

/-- Total mass of an ensemble. -/
noncomputable def total_mass (l : List MassPoint) : ℝ := (l.map (fun mp => mp.mass)).sum

/-- Total momentum of an ensemble. -/
noncomputable def total_momentum (l : List MassPoint) : Pair ℝ :=
  (l.map (fun mp => mp.velocity * mp.mass)).sum

/-!
### Generic state / solver framework (`state.rs`, `solver.rs`)

The `State` trait plus the arithmetic capabilities `RungeKutta4` requires
(`Clone`, `AddAssign<S>`, `Mul<Axis> for Difference`, `Mul<Quantity> for
Axis`) become an explicit operations record; `clone` is a value copy, and
in-place `+=` / `progress` become their functional counterparts. -/
structure StateOps (S D A : Type) where
  calculate_difference : S → D
  progress : S → A → D → S
  accumulate : S → S → S
  scale : D → A → S
  axis_scale : A → ℚ → A

/-- `solver.rs` `RungeKutta4::progress`.  The Rust literals `0.5`,
`1.0 / 6.0`, `2.0 / 6.0` are kept verbatim. -/
def rk4_progress (ops : StateOps S D A) (state : S) (duration : A) : S :=
  let k1 := ops.calculate_difference state
  let state2 := ops.progress state (ops.axis_scale duration 0.5) k1
  let k2 := ops.calculate_difference state2
  let state3 := ops.progress state (ops.axis_scale duration 0.5) k2
  let k3 := ops.calculate_difference state3
  let state4 := ops.progress state duration k3
  let k4 := ops.calculate_difference state4
  let s1 := ops.accumulate state (ops.scale k1 (ops.axis_scale duration (1.0 / 6.0)))
  let s2 := ops.accumulate s1 (ops.scale k2 (ops.axis_scale duration (2.0 / 6.0)))
  let s3 := ops.accumulate s2 (ops.scale k3 (ops.axis_scale duration (2.0 / 6.0)))
  ops.accumulate s3 (ops.scale k4 (ops.axis_scale duration (1.0 / 6.0)))

/-- The arguments passed to `calculate_difference` by
`RungeKutta4::progress`, in call order (its only derivative evaluations). -/
def rk4_derive_calls (ops : StateOps S D A) (state : S) (duration : A) : List S :=
  let k1 := ops.calculate_difference state
  let state2 := ops.progress state (ops.axis_scale duration 0.5) k1
  let k2 := ops.calculate_difference state2
  let state3 := ops.progress state (ops.axis_scale duration 0.5) k2
  let k3 := ops.calculate_difference state3
  let state4 := ops.progress state duration k3
  [state, state2, state3, state4]

/-- The four derivative-evaluation points as claim C6 words them: the
current state, and throwaway copies advanced by d/2 via k1, d/2 via k2,
and d via k3. -/
def rk4_claim_calls (ops : StateOps S D A) (state : S) (duration : A) : List S :=
  let k1 := ops.calculate_difference state
  let s2 := ops.progress state (ops.axis_scale duration (1 / 2)) k1
  let k2 := ops.calculate_difference s2
  let s3 := ops.progress state (ops.axis_scale duration (1 / 2)) k2
  let k3 := ops.calculate_difference s3
  let s4 := ops.progress state duration k3
  [state, s2, s3, s4]

/-- The final state as claim C6 words it: the original state accumulated
with k1·d·(1/6), k2·d·(2/6), k3·d·(2/6), k4·d·(1/6), in that order. -/
def rk4_claim_result (ops : StateOps S D A) (state : S) (duration : A) : S :=
  let k1 := ops.calculate_difference state
  let s2 := ops.progress state (ops.axis_scale duration (1 / 2)) k1
  let k2 := ops.calculate_difference s2
  let s3 := ops.progress state (ops.axis_scale duration (1 / 2)) k2
  let k3 := ops.calculate_difference s3
  let s4 := ops.progress state duration k3
  let k4 := ops.calculate_difference s4
  ops.accumulate
    (ops.accumulate
      (ops.accumulate
        (ops.accumulate state (ops.scale k1 (ops.axis_scale duration (1 / 6))))
        (ops.scale k2 (ops.axis_scale duration (2 / 6))))
      (ops.scale k3 (ops.axis_scale duration (2 / 6))))
    (ops.scale k4 (ops.axis_scale duration (1 / 6)))

/-!
### The ensemble state (`universe.rs` `Universe`)
-/

/-- `universe.rs` `Universe`: structure-of-arrays ensemble. -/
structure Universe where
  gravity_constant : ℚ
  ms : List ℚ
  xs : List ℚ
  ys : List ℚ
  us : List ℚ
  vs : List ℚ
  minimum_ratio_for_integration : ℚ

/-- `universe.rs` `UniverseDiff`. -/
structure UniverseDiff where
  velocities : List (Pair ℚ)
  accels : List (Pair ℚ)

/-- In-place update of the first list through `iter_mut().zip(..)`: entries
beyond the shorter length are left unchanged, and the length of the first
list never changes. -/
def zip_update (f : α → β → α) : List α → List β → List α
  | [], _ => []
  | l, [] => l
  | a :: l, b :: m => f a b :: zip_update f l m

/-- `universe.rs` `State::progress for Universe`: positions advance by
velocity·duration, velocities by acceleration·duration. -/
def Universe.progress (u : Universe) (duration : ℚ) (diff : UniverseDiff) : Universe :=
  { u with
    xs := zip_update (fun x u' => x + u' * duration) u.xs
      (diff.velocities.map (fun v => v.x))
    ys := zip_update (fun y v' => y + v' * duration) u.ys
      (diff.velocities.map (fun v => v.y))
    us := zip_update (fun u' a => u' + a * duration) u.us
      (diff.accels.map (fun a => a.x))
    vs := zip_update (fun v' a => v' + a * duration) u.vs
      (diff.accels.map (fun a => a.y)) }

/-- First body of the C8 witness. -/
noncomputable def c8_mp1 : MassPoint := { mass := 1, position := ⟨0, 0⟩, velocity := ⟨1, 0⟩ }

/-- Second body of the C8 witness. -/
noncomputable def c8_mp2 : MassPoint := { mass := 1, position := ⟨3, 4⟩, velocity := ⟨0, 1⟩ }

/-! ### Helper lemmas -/

theorem Pair.add_def [Add α] (a b : Pair α) : a + b = ⟨a.x + b.x, a.y + b.y⟩ := rfl

theorem Pair.sub_def [Sub α] (a b : Pair α) : a - b = ⟨a.x - b.x, a.y - b.y⟩ := rfl

theorem Pair.zero_def [Zero α] : (0 : Pair α) = ⟨0, 0⟩ := rfl

theorem Pair.hmul_def [Mul α] (p : Pair α) (s : α) : p * s = ⟨p.x * s, p.y * s⟩ := rfl

theorem Pair.hdiv_def [Div α] (p : Pair α) (s : α) : p / s = ⟨p.x / s, p.y / s⟩ := rfl

@[simp] theorem Pair.x_zero [Zero α] : (0 : Pair α).x = 0 := rfl

@[simp] theorem Pair.y_zero [Zero α] : (0 : Pair α).y = 0 := rfl

@[simp] theorem TreeNode.data_mk (d : Rect α) (cs : List (TreeNode α)) :
    (TreeNode.mk d cs).data = d := rfl

@[simp] theorem TreeNode.children_mk (d : Rect α) (cs : List (TreeNode α)) :
    (TreeNode.mk d cs).children = cs := rfl

theorem foldl_add_eq_sum [AddCommMonoid M] (l : List M) : l.foldl (· + ·) 0 = l.sum :=
  (List.sum_eq_foldl).symm

theorem mapOption_forall₂ {f : α → Option β} :
    ∀ {l : List α} {r : List β}, mapOption f l = some r →
      List.Forall₂ (fun a b => f a = some b) l r := by
  intro l
  induction l with
  | nil =>
    intro r h
    simp only [mapOption, Option.some.injEq] at h
    subst h
    exact .nil
  | cons a l ih =>
    intro r h
    simp only [mapOption] at h
    cases hfa : f a with
    | none => rw [hfa] at h; cases h
    | some b =>
      rw [hfa] at h
      cases hml : mapOption f l with
      | none => rw [hml] at h; cases h
      | some r0 =>
        rw [hml] at h
        simp only [Option.some.injEq] at h
        subst h
        exact .cons hfa (ih hml)

theorem forall₂_mem_left {R : α → β → Prop} :
    ∀ {l : List α} {r : List β}, List.Forall₂ R l r → ∀ a ∈ l, ∃ b ∈ r, R a b := by
  intro l r h
  induction h with
  | nil => intro a ha; cases ha
  | cons hab _ ih =>
    intro a ha
    rcases List.mem_cons.1 ha with rfl | ha
    · exact ⟨_, List.mem_cons_self .., hab⟩
    · rcases ih a ha with ⟨b, hb, hr⟩
      exact ⟨b, List.mem_cons_of_mem _ hb, hr⟩

theorem forall₂_mem_right {R : α → β → Prop} :
    ∀ {l : List α} {r : List β}, List.Forall₂ R l r → ∀ b ∈ r, ∃ a ∈ l, R a b := by
  intro l r h
  induction h with
  | nil => intro b hb; cases hb
  | cons hab _ ih =>
    intro b hb
    rcases List.mem_cons.1 hb with rfl | hb
    · exact ⟨_, List.mem_cons_self .., hab⟩
    · rcases ih b hb with ⟨a, ha, hr⟩
      exact ⟨a, List.mem_cons_of_mem _ ha, hr⟩

theorem forall₂_map_sum [AddCommMonoid M] {R : α → β → Prop} (g : β → M) (h : α → M) :
    ∀ {l : List α} {r : List β}, List.Forall₂ R l r →
      (∀ a ∈ l, ∀ b, R a b → g b = h a) → (r.map g).sum = (l.map h).sum := by
  intro l r hf
  induction hf with
  | nil => intro _; rfl
  | cons hab htail ih =>
    intro hgh
    simp only [List.map_cons, List.sum_cons]
    rw [hgh _ (List.mem_cons_self ..) _ hab,
      ih (fun a ha b hr => hgh a (List.mem_cons_of_mem _ ha) b hr)]

theorem mem_groupsOf {gc : Pair ℚ} {l : List (StaticMassPoint ℚ)}
    {lg : ChildRectLocation × List (StaticMassPoint ℚ)} (h : lg ∈ groupsOf gc l) :
    lg.2 = l.filter (fun p => decide (ChildRectLocation.locate p.position gc = lg.1)) ∧
      lg.2 ≠ [] := by
  simp only [groupsOf, List.mem_filterMap] at h
  rcases h with ⟨loc, _, hloc⟩
  by_cases he :
    (l.filter (fun p => decide (ChildRectLocation.locate p.position gc = loc))).isEmpty
  · rw [if_pos he] at hloc; cases hloc
  · rw [if_neg he] at hloc
    cases hloc
    exact ⟨rfl, fun hnil => he (List.isEmpty_iff.2 hnil)⟩

theorem sum_groupsOf_map [AddCommMonoid M] (S : List (StaticMassPoint ℚ) → M)
    (hS : S [] = 0) (gc : Pair ℚ) (l : List (StaticMassPoint ℚ)) :
    ((groupsOf gc l).map (fun lg => S lg.2)).sum =
      (allLocations.map (fun loc =>
        S (l.filter (fun p => decide (ChildRectLocation.locate p.position gc = loc))))).sum := by
  unfold groupsOf
  generalize allLocations = locs
  induction locs with
  | nil => rfl
  | cons loc locs ih =>
    simp only [List.filterMap_cons, List.map_cons, List.sum_cons]
    by_cases he :
      (l.filter (fun p => decide (ChildRectLocation.locate p.position gc = loc))).isEmpty
    · rw [if_pos he, ih, List.isEmpty_iff.1 he, hS, zero_add]
    · rw [if_neg he]
      simp only [List.map_cons, List.sum_cons, ih]

theorem filter_partition_sum [AddCommMonoid M] (f : StaticMassPoint ℚ → M) (gc : Pair ℚ)
    (l : List (StaticMassPoint ℚ)) :
    (allLocations.map (fun loc =>
      ((l.filter (fun p => decide (ChildRectLocation.locate p.position gc = loc))).map f).sum)).sum
      = (l.map f).sum := by
  induction l with
  | nil => simp [allLocations]
  | cons p l ih =>
    simp only [allLocations, List.map_cons, List.sum_cons, List.map_nil, List.sum_nil] at ih ⊢
    cases h : ChildRectLocation.locate p.position gc <;>
      simp only [List.filter_cons, h, decide_eq_true_eq, reduceCtorEq, eq_self_iff_true,
        if_true, if_false, List.map_cons, List.sum_cons] <;>
      · rw [← ih]; abel

theorem construct_tree_nil (fuel : Nat) (rect : Rect ℚ) :
    construct_tree fuel rect [] = some (.mk rect []) := by
  cases fuel <;> rfl

theorem construct_tree_single (fuel : Nat) (rect : Rect ℚ) (m : StaticMassPoint ℚ) :
    construct_tree fuel rect [m] =
      some (.mk { rect with mass := m.mass, mass_center := m.position } []) := by
  cases fuel <;> rfl

theorem construct_tree_zero (rect : Rect ℚ) (p q : StaticMassPoint ℚ)
    (rest : List (StaticMassPoint ℚ)) :
    construct_tree 0 rect (p :: q :: rest) = none := rfl

theorem construct_tree_succ (fuel : Nat) (rect : Rect ℚ) (p q : StaticMassPoint ℚ)
    (rest : List (StaticMassPoint ℚ)) :
    construct_tree (fuel + 1) rect (p :: q :: rest) =
      (mapOption (fun lg => construct_tree fuel (child_rect lg.1 rect) lg.2)
          (groupsOf rect.geometric_center (p :: q :: rest))).map
        (fun children =>
          let weight_sum := (children.map (fun c => c.data.mass)).foldl (· + ·) 0
          let mass_center :=
            ((children.map (fun c => c.data.mass_center * c.data.mass)).foldl (· + ·) 0) /
              weight_sum
          .mk { rect with mass := weight_sum, mass_center := mass_center } children) := rfl

theorem construct_tree_geom {fuel : Nat} {rect : Rect ℚ} {l : List (StaticMassPoint ℚ)}
    {t : TreeNode ℚ} (h : construct_tree fuel rect l = some t) :
    t.data.geometric_center = rect.geometric_center ∧ t.data.length = rect.length := by
  match l with
  | [] => rw [construct_tree_nil] at h; cases h; exact ⟨rfl, rfl⟩
  | [m] => rw [construct_tree_single] at h; cases h; exact ⟨rfl, rfl⟩
  | p :: q :: rest =>
    cases fuel with
    | zero => rw [construct_tree_zero] at h; cases h
    | succ n =>
      rw [construct_tree_succ] at h
      rcases Option.map_eq_some'.1 h with ⟨children, _, rfl⟩
      exact ⟨rfl, rfl⟩

theorem tree_all_mk (P : TreeNode ℚ → Bool) (d : Rect ℚ) (cs : List (TreeNode ℚ)) :
    tree_all P (.mk d cs) = (P (.mk d cs) && tree_all_list P cs) := by
  rw [tree_all]

theorem tree_all_list_iff (P : TreeNode ℚ → Bool) :
    ∀ cs : List (TreeNode ℚ), tree_all_list P cs = true ↔ ∀ c ∈ cs, tree_all P c = true := by
  intro cs
  induction cs with
  | nil => simp [tree_all_list]
  | cons c cs ih => rw [tree_all_list]; simp [ih]

theorem construct_tree_single_sound {fuel : Nat} {rect : Rect ℚ} {m : StaticMassPoint ℚ}
    {t : TreeNode ℚ} (h : construct_tree fuel rect [m] = some t) (hm : 0 < m.mass) :
    t.data.mass = masses_sum [m] ∧ 0 < t.data.mass ∧
      t.data.mass_center * t.data.mass = weighted_position_sum [m] ∧
      t.data.mass_center = centroid [m] ∧
      agg_inv_b t = true ∧ internal_pos_b t = true := by
  rw [construct_tree_single] at h
  cases h
  refine ⟨by simp [masses_sum], hm, by simp [weighted_position_sum], ?_, rfl, rfl⟩
  show m.position = centroid [m]
  unfold centroid masses_sum weighted_position_sum
  simp only [List.map_cons, List.map_nil, List.sum_cons, List.sum_nil, add_zero]
  ext
  · exact (mul_div_cancel_right₀ m.position.x hm.ne').symm
  · exact (mul_div_cancel_right₀ m.position.y hm.ne').symm

theorem construct_tree_sound :
    ∀ (fuel : Nat) (rect : Rect ℚ) (l : List (StaticMassPoint ℚ)) (t : TreeNode ℚ),
      construct_tree fuel rect l = some t → (∀ p ∈ l, 0 < p.mass) → l ≠ [] →
      t.data.mass = masses_sum l ∧ 0 < t.data.mass ∧
        t.data.mass_center * t.data.mass = weighted_position_sum l ∧
        t.data.mass_center = centroid l ∧
        agg_inv_b t = true ∧ internal_pos_b t = true := by
  intro fuel
  induction fuel with
  | zero =>
    intro rect l t h hpos hne
    match l with
    | [] => exact absurd rfl hne
    | [m] => exact construct_tree_single_sound h (hpos m (by simp))
    | p :: q :: rest => rw [construct_tree_zero] at h; cases h
  | succ n ih =>
    intro rect l t h hpos hne
    match l with
    | [] => exact absurd rfl hne
    | [m] => exact construct_tree_single_sound h (hpos m (by simp))
    | p :: q :: rest =>
      rw [construct_tree_succ] at h
      rcases Option.map_eq_some'.1 h with ⟨children, hmo, rfl⟩
      have hf₂ := mapOption_forall₂ hmo
      have key : ∀ lg ∈ groupsOf rect.geometric_center (p :: q :: rest), ∀ c : TreeNode ℚ,
          construct_tree n (child_rect lg.1 rect) lg.2 = some c →
          c.data.mass = masses_sum lg.2 ∧ 0 < c.data.mass ∧
            c.data.mass_center * c.data.mass = weighted_position_sum lg.2 ∧
            agg_inv_b c = true ∧ internal_pos_b c = true := by
        intro lg hlg c hc
        rcases mem_groupsOf hlg with ⟨hfil, hnil⟩
        have hsub : ∀ p' ∈ lg.2, 0 < p'.mass := by
          intro p' hp'
          rw [hfil] at hp'
          exact hpos p' (List.mem_filter.1 hp').1
        rcases ih (child_rect lg.1 rect) lg.2 c hc hsub hnil with ⟨h1, h2, h3, _, h5, h6⟩
        exact ⟨h1, h2, h3, h5, h6⟩
      have hmass : (children.map (fun c => c.data.mass)).sum =
          masses_sum (p :: q :: rest) := by
        rw [forall₂_map_sum (fun c => c.data.mass) (fun lg => masses_sum lg.2) hf₂
          (fun lg hlg c hc => (key lg hlg c hc).1)]
        rw [sum_groupsOf_map masses_sum rfl]
        unfold masses_sum
        exact filter_partition_sum _ _ _
      have hwps : (children.map (fun c => c.data.mass_center * c.data.mass)).sum =
          weighted_position_sum (p :: q :: rest) := by
        rw [forall₂_map_sum (fun c => c.data.mass_center * c.data.mass)
          (fun lg => weighted_position_sum lg.2) hf₂
          (fun lg hlg c hc => (key lg hlg c hc).2.2.1)]
        rw [sum_groupsOf_map weighted_position_sum rfl]
        unfold weighted_position_sum
        exact filter_partition_sum _ _ _
      have hpossum : 0 < masses_sum (p :: q :: rest) := by
        apply List.sum_pos
        · intro x hx
          rcases List.mem_map.1 hx with ⟨p', hp', rfl⟩
          exact hpos p' hp'
        · simp
      have hchild : ∀ c ∈ children, agg_inv_b c = true ∧ internal_pos_b c = true := by
        intro c hc
        rcases forall₂_mem_right hf₂ c hc with ⟨lg, hlg, hr⟩
        exact ⟨(key lg hlg c hr).2.2.2.1, (key lg hlg c hr).2.2.2.2⟩
      dsimp only
      rw [foldl_add_eq_sum, foldl_add_eq_sum, hmass, hwps]
      have hne0 : masses_sum (p :: q :: rest) ≠ 0 := hpossum.ne'
      refine ⟨rfl, hpossum, ?_, rfl, ?_, ?_⟩
      · ext
        · exact div_mul_cancel₀ _ hne0
        · exact div_mul_cancel₀ _ hne0
      · rw [agg_inv_b, tree_all_mk, Bool.and_eq_true]
        constructor
        · simp only [agg_node_b, TreeNode.children_mk, TreeNode.data_mk, Bool.or_eq_true,
            Bool.and_eq_true, decide_eq_true_eq]
          exact Or.inr ⟨hmass.symm, by rw [hwps]⟩
        · rw [tree_all_list_iff]
          intro c hc
          exact (hchild c hc).1
      · rw [internal_pos_b, tree_all_mk, Bool.and_eq_true]
        constructor
        · simp only [TreeNode.children_mk, TreeNode.data_mk, Bool.or_eq_true,
            decide_eq_true_eq]
          exact Or.inr hpossum
        · rw [tree_all_list_iff]
          intro c hc
          exact (hchild c hc).2

theorem groupsOf_mem_of_filter_ne (gc : Pair ℚ) (l : List (StaticMassPoint ℚ))
    (loc : ChildRectLocation)
    (h : l.filter (fun p => decide (ChildRectLocation.locate p.position gc = loc)) ≠ []) :
    (loc, l.filter (fun p => decide (ChildRectLocation.locate p.position gc = loc))) ∈
      groupsOf gc l := by
  apply List.mem_filterMap.2
  refine ⟨loc, ?_, ?_⟩
  · cases loc <;> simp [allLocations]
  · rw [if_neg (fun he => h (List.isEmpty_iff.1 he))]

theorem to_geometric_center_eq_half (loc : ChildRectLocation) (rect : Rect ℚ) :
    loc.to_geometric_center rect = amended_half_center loc rect := by
  cases loc <;>
    · simp [ChildRectLocation.to_geometric_center, amended_half_center, loc_sign,
        Pair.add_def, Pair.ext_iff]
      constructor <;> ring

/-! ### Concrete evaluations shared by witnesses and counterexamples -/

theorem two_body_root_eval : construct_root_rect two_body_points = two_body_root := by
  norm_num [construct_root_rect, two_body_points, two_body_root, min_def, max_def,
    Pair.ext_iff, Pair.add_def, Pair.sub_def, Pair.hdiv_def, Pair.hmul_def]

theorem two_body_eval : construct_tree 2 two_body_root two_body_points = some two_body_tree := by
  norm_num [construct_tree, two_body_points, two_body_root, two_body_tree, groupsOf,
    allLocations, mapOption, child_rect, ChildRectLocation.locate,
    ChildRectLocation.to_geometric_center, Pair.add_def, Pair.hmul_def, Pair.hdiv_def,
    Pair.sub_def]

theorem c7_root_eval : construct_root_rect c7_points = c7_rect := by
  norm_num [construct_root_rect, c7_points, c7_rect, min_def, max_def, Pair.ext_iff,
    Pair.add_def, Pair.sub_def, Pair.hdiv_def]

theorem c7_group_eval :
    groupsOf c7_rect.geometric_center c7_points = [(.RightBottom, c7_points)] := by
  decide

theorem c7_child_eval : child_rect .RightBottom c7_rect = c7_rect := by
  norm_num [child_rect, c7_rect, ChildRectLocation.to_geometric_center, Pair.ext_iff,
    Pair.add_def, Pair.hmul_def, Pair.hdiv_def, Rect.mk.injEq]

theorem c7_key : ∀ n : Nat, construct_tree n c7_rect c7_points = none := by
  intro n
  induction n with
  | zero => rfl
  | succ n ihn =>
    have hcons : c7_points = ⟨1, ⟨0, 0⟩⟩ :: ⟨1, ⟨0, 10⟩⟩ :: [] := rfl
    rw [hcons, construct_tree_succ, ← hcons, c7_group_eval]
    simp only [mapOption, c7_child_eval, ihn]
    rfl

/-! ### Claim theorems: tree construction -/

/-- C1: the claim says the root region is the midpoint / size of the
axis-aligned bounding box taken per axis.  The code computes both the `x`
and the `y` extrema from the `x` coordinates (`construct_root`,
gravity_calc.rs lines 136-140), so on `c1_points` — masses 1 at (0,0) and
(1,5) — it returns center (1/2, 1/2) and extent (1, 1) where the claimed
per-axis bounding box has midpoint (1/2, 5/2) and size (1, 5). -/
theorem c1_root_bounding_box_bug :
    (construct_root_rect c1_points).geometric_center = ⟨1/2, 1/2⟩ ∧
    (construct_root_rect c1_points).length = ⟨1, 1⟩ ∧
    spec_root_center c1_points = ⟨1/2, 5/2⟩ ∧
    spec_root_extent c1_points = ⟨1, 5⟩ ∧
    (construct_root_rect c1_points).geometric_center ≠ spec_root_center c1_points ∧
    (construct_root_rect c1_points).length ≠ spec_root_extent c1_points := by
  norm_num [construct_root_rect, c1_points, spec_root_center, spec_root_extent,
    spec_box_min, spec_box_max, min_def, max_def, Pair.ext_iff, Pair.add_def,
    Pair.sub_def, Pair.hdiv_def]

/-- C2 counterexample: on `two_body_points` the LeftTop quadrant receives a
point, but no child of the constructed tree has its geometric center at the
claimed quarter offset (the children sit at the half offsets (0,0) and
(4,0), while the claimed LeftTop quarter-offset center is (1,1)). -/
theorem c2_quarter_offset_counterexample :
    construct_tree 2 two_body_root two_body_points = some two_body_tree ∧
    two_body_points.filter (fun p =>
      decide (ChildRectLocation.locate p.position two_body_root.geometric_center =
        ChildRectLocation.LeftTop)) ≠ [] ∧
    ∀ c ∈ two_body_tree.children,
      c.data.geometric_center ≠ claimed_quarter_center .LeftTop two_body_root := by
  refine ⟨two_body_eval, by decide, ?_⟩
  norm_num [two_body_tree, claimed_quarter_center, loc_sign, two_body_root,
    Pair.add_def, Pair.ext_iff, TreeNode.data, TreeNode.children]

/-- C2 (amended): during tree construction, for every quadrant that receives
at least one point, the child node created for it has geometric center
offset from the parent's by ± one HALF of the parent's extent on each axis
(toward that quadrant) and extent equal to half the parent's extent. -/
theorem c2_child_geometry_amended :
    ∀ (fuel : Nat) (rect : Rect ℚ) (l : List (StaticMassPoint ℚ)) (t : TreeNode ℚ)
      (loc : ChildRectLocation),
      construct_tree fuel rect l = some t → 2 ≤ l.length →
      l.filter (fun p =>
        decide (ChildRectLocation.locate p.position rect.geometric_center = loc)) ≠ [] →
      ∃ c ∈ t.children,
        c.data.geometric_center = amended_half_center loc rect ∧
        c.data.length = rect.length / (2 : ℚ) := by
  intro fuel rect l t loc h hlen hne
  match l with
  | [] => norm_num at hlen
  | [m] => norm_num at hlen
  | p :: q :: rest =>
    cases fuel with
    | zero => rw [construct_tree_zero] at h; cases h
    | succ n =>
      rw [construct_tree_succ] at h
      rcases Option.map_eq_some'.1 h with ⟨children, hmo, rfl⟩
      have hmem := groupsOf_mem_of_filter_ne rect.geometric_center (p :: q :: rest) loc hne
      rcases forall₂_mem_left (mapOption_forall₂ hmo) _ hmem with ⟨c, hc, hcc⟩
      rcases construct_tree_geom hcc with ⟨hg, hl⟩
      refine ⟨c, hc, ?_, ?_⟩
      · rw [hg]
        exact to_geometric_center_eq_half loc rect
      · rw [hl]
        rfl

/-- Witness for C2 (amended), at `two_body_points` and the LeftTop quadrant. -/
theorem c2_child_geometry_witness :
    (construct_tree 2 two_body_root two_body_points = some two_body_tree ∧
      2 ≤ two_body_points.length ∧
      two_body_points.filter (fun p =>
        decide (ChildRectLocation.locate p.position two_body_root.geometric_center =
          ChildRectLocation.LeftTop)) ≠ []) ∧
    ∃ c ∈ two_body_tree.children,
      c.data.geometric_center = amended_half_center .LeftTop two_body_root ∧
      c.data.length = two_body_root.length / (2 : ℚ) :=
  ⟨⟨two_body_eval, by decide, by decide⟩,
   c2_child_geometry_amended 2 two_body_root two_body_points two_body_tree .LeftTop
     two_body_eval (by decide) (by decide)⟩

/-- C3: whenever `construct_tree` completes on a non-empty list of points of
strictly positive masses (each recursive call receives exactly the points of
one region, so this covers every node of the final tree), the resulting
node satisfies the aggregation invariant everywhere (internal nodes sum
their children's masses and mass-average their centers), its mass is the
exact sum of the individual masses, its center of mass is the classical
mass-weighted centroid, and a single-occupant call copies exactly that
occupant's mass and position. -/
theorem c3_aggregation_invariant :
    ∀ (fuel : Nat) (rect : Rect ℚ) (l : List (StaticMassPoint ℚ)) (t : TreeNode ℚ),
      construct_tree fuel rect l = some t → (∀ p ∈ l, 0 < p.mass) → l ≠ [] →
      agg_inv_b t = true ∧ t.data.mass = masses_sum l ∧
        t.data.mass_center = centroid l ∧
        ∀ m, l = [m] → t.data.mass = m.mass ∧ t.data.mass_center = m.position := by
  intro fuel rect l t h hpos hne
  rcases construct_tree_sound fuel rect l t h hpos hne with ⟨h1, _, _, h4, h5, _⟩
  refine ⟨h5, h1, h4, ?_⟩
  intro m hm
  subst hm
  rw [construct_tree_single] at h
  cases h
  exact ⟨rfl, rfl⟩

/-- Witness for C3, at `two_body_points`. -/
theorem c3_aggregation_witness :
    ((∀ p ∈ two_body_points, 0 < p.mass) ∧ two_body_points ≠ []) ∧
    (agg_inv_b two_body_tree = true ∧
      two_body_tree.data.mass = masses_sum two_body_points ∧
      two_body_tree.data.mass_center = centroid two_body_points ∧
      ∀ m, two_body_points = [m] →
        two_body_tree.data.mass = m.mass ∧ two_body_tree.data.mass_center = m.position) :=
  ⟨⟨by decide, by decide⟩,
   c3_aggregation_invariant 2 two_body_root two_body_points two_body_tree two_body_eval
     (by decide) (by decide)⟩

/-- C7: the claim says construction recurses forever only for coincident
points.  `c7_points` — masses 1 at (0,0) and (0,10) — have pairwise
distinct positions, yet construction hits the recursion bound for every
bound, i.e. recurses forever: the root bounding box degenerates to center
(0,0) and extent (0,0) (its y extrema are taken from the x coordinates),
both points classify into the RightBottom quadrant, and the child region
equals the parent region, so the ≥2-point branch repeats identically. -/
theorem c7_distinct_points_nontermination :
    (c7_points.map (fun p => p.position)).Nodup ∧
    ∀ fuel : Nat, buildTree fuel c7_points = none := by
  refine ⟨by decide, ?_⟩
  intro fuel
  rw [buildTree, c7_root_eval]
  exact c7_key fuel

/-- C9: if every input mass is strictly positive and `construct_tree`
completes, every internal node of the result has strictly positive
aggregated mass — which is exactly the property the construction-time
`assert!(weight_sum.value_unsafe > 0.0)` checks once per internal node, so
the assertion never fails. -/
theorem c9_internal_mass_positive :
    ∀ (fuel : Nat) (rect : Rect ℚ) (l : List (StaticMassPoint ℚ)) (t : TreeNode ℚ),
      construct_tree fuel rect l = some t → (∀ p ∈ l, 0 < p.mass) →
      internal_pos_b t = true := by
  intro fuel rect l t h hpos
  cases l with
  | nil =>
    rw [construct_tree_nil] at h
    cases h
    rfl
  | cons p rest =>
    exact (construct_tree_sound fuel rect (p :: rest) t h hpos
      (List.cons_ne_nil p rest)).2.2.2.2.2

/-- Witness for C9, at `two_body_points`. -/
theorem c9_internal_mass_positive_witness :
    (∀ p ∈ two_body_points, 0 < p.mass) ∧ internal_pos_b two_body_tree = true :=
  ⟨by decide,
   c9_internal_mass_positive 2 two_body_root two_body_points two_body_tree two_body_eval
     (by decide)⟩

theorem calculate_accel_list_eq_map (mass_point : StaticMassPoint ℝ)
    (G cutoff ratio : ℝ) :
    ∀ ts : List (TreeNode ℝ),
      calculate_accel_list mass_point ts G cutoff ratio =
        ts.map (fun c => calculate_accel mass_point c G cutoff ratio) := by
  intro ts
  induction ts with
  | nil => rfl
  | cons t ts ih => rw [calculate_accel_list, ih, List.map_cons]

theorem zip_update_length (f : α → β → α) :
    ∀ (l : List α) (m : List β), (zip_update f l m).length = l.length := by
  intro l
  induction l with
  | nil => intro m; cases m <;> rfl
  | cons a l ih =>
    intro m
    cases m with
    | nil => rfl
    | cons b m => simp [zip_update, ih]

/-! ### Claim theorems: force approximator, solver, merging, frame -/

open Classical in
/-- C4: the traversal treats a node as a single aggregate body exactly when
`(‖point − center_of_mass‖² + 1) / (‖extent‖² + 1) > accuracy_threshold`
or the node is a leaf, and otherwise recurses into every child and returns
the sum of the children's contributions. -/
theorem c4_traversal_decision :
    ∀ (p : StaticMassPoint ℝ) (t : TreeNode ℝ) (G cutoff ratio : ℝ),
      calculate_accel p t G cutoff ratio =
        if (norm_sq (p.position - t.data.mass_center) + 1) / (norm_sq t.data.length + 1) >
              ratio ∨ t.children = [] then
          aggregate_body p t.data G cutoff
        else
          (t.children.map (fun c => calculate_accel p c G cutoff ratio)).sum := by
  intro p t G cutoff ratio
  match t with
  | .mk data children =>
    simp only [calculate_accel, TreeNode.data_mk, TreeNode.children_mk]
    rw [calculate_accel_list_eq_map, foldl_add_eq_sum]
    have hnorm : ((p.position - data.mass_center).toList).foldl
        (fun acc cur => acc + cur * cur) 1 = norm_sq (p.position - data.mass_center) + 1 := by
      simp only [Pair.toList, List.foldl_cons, List.foldl_nil, norm_sq]
      ring
    have hlen : (data.length.toList).foldl (fun acc cur => acc + cur * cur) 1 =
        norm_sq data.length + 1 := by
      simp only [Pair.toList, List.foldl_cons, List.foldl_nil, norm_sq]
      ring
    have hiff : (((p.position - data.mass_center).toList).foldl
          (fun acc cur => acc + cur * cur) 1 /
            (data.length.toList).foldl (fun acc cur => acc + cur * cur) 1 > ratio ∨
          children.isEmpty = true) ↔
        ((norm_sq (p.position - data.mass_center) + 1) / (norm_sq data.length + 1) > ratio ∨
          children = []) := by
      rw [hnorm, hlen, List.isEmpty_iff]
    exact if_congr hiff rfl rfl

open Classical in
/-- C5: when a node is treated as one aggregate body, its contribution is
zero for a coinciding center of mass, and otherwise the direction
`(center_of_mass − position)` normalized by its own length, times
`G · total_mass / (distance_raw² + softening²)` with the un-shifted squared
separation. -/
theorem c5_aggregate_contribution :
    ∀ (p : StaticMassPoint ℝ) (rect : Rect ℝ) (G cutoff : ℝ),
      aggregate_body p rect G cutoff =
        if rect.mass_center = p.position then 0
        else
          ((rect.mass_center - p.position) /
              Real.sqrt (norm_sq (rect.mass_center - p.position))) *
            (G * rect.mass / (norm_sq (rect.mass_center - p.position) + cutoff ^ 2)) := by
  intro p rect G cutoff
  by_cases h : rect.mass_center = p.position
  · rw [aggregate_body, if_pos h, if_pos h]
  · rw [aggregate_body, if_neg h, if_neg h]
    simp only [accel_between]
    have hsq : (((rect.mass_center - p.position).map (fun d => d * d)).toList).foldl
        (· + ·) 0 = norm_sq (rect.mass_center - p.position) := by
      simp only [Pair.map, Pair.toList, List.foldl_cons, List.foldl_nil, norm_sq]
      ring
    rw [hsq]
    ext <;>
      simp only [Pair.hmul_def, Pair.hdiv_def] <;>
      ring

/-- C6: `RungeKutta4::progress` evaluates the derivative exactly four times
— on the current state, and on copies advanced by d/2 via k1, by d/2 via
k2, and by d via k3 — and produces its result by accumulating, onto the
original state only, k1·(d·(1/6)), k2·(d·(2/6)), k3·(d·(2/6)) and
k4·(d·(1/6)); the intermediate advanced states are value copies that are
never accumulated into the result. -/
theorem c6_rk4_structure :
    ∀ (S D A : Type) (ops : StateOps S D A) (state : S) (duration : A),
      rk4_derive_calls ops state duration = rk4_claim_calls ops state duration ∧
      (rk4_derive_calls ops state duration).length = 4 ∧
      rk4_progress ops state duration = rk4_claim_result ops state duration := by
  intro S D A ops s d
  have h05 : (0.5 : ℚ) = 1 / 2 := by norm_num
  have h16 : (1.0 / 6.0 : ℚ) = 1 / 6 := by norm_num
  have h26 : (2.0 / 6.0 : ℚ) = 2 / 6 := by norm_num
  refine ⟨?_, rfl, ?_⟩
  · simp only [rk4_derive_calls, rk4_claim_calls, h05]
  · simp only [rk4_progress, rk4_claim_result, h05, h16, h26]

open Classical in
theorem merge_masspoints_pair (mp1 mp2 : MassPoint) (density : ℝ) :
    merge_masspoints [mp1, mp2] density =
      if conflicts mp1 mp2 density then [merge mp2 mp1] else [mp2, mp1] := by
  by_cases h : conflicts mp1 mp2 density
  · rw [if_pos h]
    simp [merge_masspoints, h]
  · rw [if_neg h]
    simp [merge_masspoints, h]

theorem conflicts_iff (mp1 mp2 : MassPoint) (density : ℝ) :
    conflicts mp1 mp2 density ↔
      Real.sqrt (norm_sq (mp1.position - mp2.position)) <
        (mp1.mass / density) ^ ((1 : ℝ) / 3) + (mp2.mass / density) ^ ((1 : ℝ) / 3) := by
  unfold conflicts
  rw [show (((mp1.position - mp2.position).toList).foldl (fun acc cur => acc + cur * cur) 0)
      = norm_sq (mp1.position - mp2.position) from by
    simp only [Pair.toList, List.foldl_cons, List.foldl_nil, norm_sq]
    ring]

/-- C8: for an ensemble of exactly two point masses of positive mass, the
merge pass yields exactly one point iff the separation is below the sum of
the density-implied radii; the merged point has mass m1+m2 and the
momentum-weighted average position and velocity (so total mass and
momentum are conserved), and otherwise both points survive untouched. -/
theorem c8_two_body_merge :
    ∀ (mp1 mp2 : MassPoint) (density : ℝ),
      0 < mp1.mass → 0 < mp2.mass →
      (((merge_masspoints [mp1, mp2] density).length = 1 ↔
          Real.sqrt (norm_sq (mp1.position - mp2.position)) <
            (mp1.mass / density) ^ ((1 : ℝ) / 3) + (mp2.mass / density) ^ ((1 : ℝ) / 3)) ∧
        (Real.sqrt (norm_sq (mp1.position - mp2.position)) <
            (mp1.mass / density) ^ ((1 : ℝ) / 3) + (mp2.mass / density) ^ ((1 : ℝ) / 3) →
          merge_masspoints [mp1, mp2] density =
            [{ mass := mp1.mass + mp2.mass
               position := (mp1.position * mp1.mass + mp2.position * mp2.mass) /
                 (mp1.mass + mp2.mass)
               velocity := (mp1.velocity * mp1.mass + mp2.velocity * mp2.mass) /
                 (mp1.mass + mp2.mass) }]) ∧
        (¬ Real.sqrt (norm_sq (mp1.position - mp2.position)) <
            (mp1.mass / density) ^ ((1 : ℝ) / 3) + (mp2.mass / density) ^ ((1 : ℝ) / 3) →
          merge_masspoints [mp1, mp2] density = [mp2, mp1]) ∧
        total_mass (merge_masspoints [mp1, mp2] density) = total_mass [mp1, mp2] ∧
        total_momentum (merge_masspoints [mp1, mp2] density) =
          total_momentum [mp1, mp2]) := by
  intro mp1 mp2 density h1 h2
  have hkey := merge_masspoints_pair mp1 mp2 density
  have hne : mp1.mass + mp2.mass ≠ 0 := (add_pos h1 h2).ne'
  by_cases hc : conflicts mp1 mp2 density
  · rw [if_pos hc] at hkey
    have hsep := (conflicts_iff mp1 mp2 density).1 hc
    have hmerge : merge mp2 mp1 =
        { mass := mp1.mass + mp2.mass
          position := (mp1.position * mp1.mass + mp2.position * mp2.mass) /
            (mp1.mass + mp2.mass)
          velocity := (mp1.velocity * mp1.mass + mp2.velocity * mp2.mass) /
            (mp1.mass + mp2.mass) } := by
      simp only [merge, MassPoint.mk.injEq, Pair.ext_iff, Pair.add_def, Pair.hmul_def,
        Pair.hdiv_def]
      refine ⟨by ring, ⟨by ring, by ring⟩, by ring, by ring⟩
    refine ⟨⟨fun _ => hsep, fun _ => by rw [hkey]; rfl⟩, fun _ => by rw [hkey, hmerge],
      fun hn => absurd hsep hn, ?_, ?_⟩
    · rw [hkey]
      simp only [total_mass, List.map_cons, List.map_nil, List.sum_cons, List.sum_nil,
        merge]
      ring
    · rw [hkey]
      simp only [total_momentum, List.map_cons, List.map_nil, List.sum_cons,
        List.sum_nil, merge]
      ext <;>
        simp only [Pair.hmul_def, Pair.hdiv_def, Pair.add_def, Pair.x_zero, Pair.y_zero,
          add_zero] <;>
        field_simp <;>
        ring
  · rw [if_neg hc] at hkey
    have hsep : ¬ Real.sqrt (norm_sq (mp1.position - mp2.position)) <
        (mp1.mass / density) ^ ((1 : ℝ) / 3) + (mp2.mass / density) ^ ((1 : ℝ) / 3) :=
      fun hs => hc ((conflicts_iff mp1 mp2 density).2 hs)
    refine ⟨⟨fun hlen => ?_, fun hs => absurd hs hsep⟩, fun hs => absurd hs hsep,
      fun _ => hkey, ?_, ?_⟩
    · rw [hkey] at hlen
      norm_num at hlen
    · rw [hkey]
      simp only [total_mass, List.map_cons, List.map_nil, List.sum_cons, List.sum_nil]
      ring
    · rw [hkey]
      simp only [total_momentum, List.map_cons, List.map_nil, List.sum_cons,
        List.sum_nil]
      ext <;>
        simp only [Pair.hmul_def, Pair.add_def, Pair.x_zero, Pair.y_zero, add_zero] <;>
        ring

/-- Witness for C8, at two unit masses and density 1. -/
theorem c8_two_body_merge_witness :
    (0 < c8_mp1.mass ∧ 0 < c8_mp2.mass) ∧
    (((merge_masspoints [c8_mp1, c8_mp2] 1).length = 1 ↔
        Real.sqrt (norm_sq (c8_mp1.position - c8_mp2.position)) <
          (c8_mp1.mass / 1) ^ ((1 : ℝ) / 3) + (c8_mp2.mass / 1) ^ ((1 : ℝ) / 3)) ∧
      (Real.sqrt (norm_sq (c8_mp1.position - c8_mp2.position)) <
          (c8_mp1.mass / 1) ^ ((1 : ℝ) / 3) + (c8_mp2.mass / 1) ^ ((1 : ℝ) / 3) →
        merge_masspoints [c8_mp1, c8_mp2] 1 =
          [{ mass := c8_mp1.mass + c8_mp2.mass
             position := (c8_mp1.position * c8_mp1.mass + c8_mp2.position * c8_mp2.mass) /
               (c8_mp1.mass + c8_mp2.mass)
             velocity := (c8_mp1.velocity * c8_mp1.mass + c8_mp2.velocity * c8_mp2.mass) /
               (c8_mp1.mass + c8_mp2.mass) }]) ∧
      (¬ Real.sqrt (norm_sq (c8_mp1.position - c8_mp2.position)) <
          (c8_mp1.mass / 1) ^ ((1 : ℝ) / 3) + (c8_mp2.mass / 1) ^ ((1 : ℝ) / 3) →
        merge_masspoints [c8_mp1, c8_mp2] 1 = [c8_mp2, c8_mp1]) ∧
      total_mass (merge_masspoints [c8_mp1, c8_mp2] 1) = total_mass [c8_mp1, c8_mp2] ∧
      total_momentum (merge_masspoints [c8_mp1, c8_mp2] 1) =
        total_momentum [c8_mp1, c8_mp2]) :=
  ⟨⟨one_pos, one_pos⟩, c8_two_body_merge c8_mp1 c8_mp2 1 one_pos one_pos⟩

/-- C10: `Universe::progress` touches only the position and velocity
arrays; the masses, the gravitational constant and the accuracy-threshold
configuration are unchanged, and all five parallel arrays keep their
lengths (each array is updated in place through `iter_mut().zip(..)`,
which never changes its length even for a mismatched `diff`). -/
theorem c10_progress_frame :
    ∀ (u : Universe) (duration : ℚ) (diff : UniverseDiff),
      (u.progress duration diff).ms = u.ms ∧
      (u.progress duration diff).gravity_constant = u.gravity_constant ∧
      (u.progress duration diff).minimum_ratio_for_integration =
        u.minimum_ratio_for_integration ∧
      (u.progress duration diff).ms.length = u.ms.length ∧
      (u.progress duration diff).xs.length = u.xs.length ∧
      (u.progress duration diff).ys.length = u.ys.length ∧
      (u.progress duration diff).us.length = u.us.length ∧
      (u.progress duration diff).vs.length = u.vs.length := by
  intro u duration diff
  refine ⟨rfl, rfl, rfl, rfl, ?_, ?_, ?_, ?_⟩ <;>
    exact zip_update_length _ _ _

end Contrust
